import Mathlib

/-!
Shallow embedding of `dictionaryGenerator.py` (n0t4u/dictionaryGenerator).

Characters are modelled as Unicode code points (`Nat`), Python strings as
`List Nat`.  The tool reads its input files with the latin-1 codec, so every
character of a source word is a code point in `0..255`.  Python `set`s are
modelled as `Finset` (the blacklist) or as deduplicated lists that the
theorems query only through membership and `toFinset` (the generated-word
sets, whose iteration order Python leaves unspecified).

The non-ASCII string literals of the Python file are reproduced byte-for-
byte as the CPython parser sees them: the accent table of `extractWords`
is stored double-encoded in the source file (its Python value is the 28
mojibake characters `Ã¡Ã©…`), and the special-character tables written as
raw strings keep the backslash of `\'` and both backslashes of `[\\]`.
-/

namespace DictGen

/-- The string `'abcdefghijklmnopqrstuvwxyz'`. -/
def lowercaseChars : List Nat :=
  [97, 98, 99, 100, 101, 102, 103, 104, 105, 106, 107, 108, 109,
   110, 111, 112, 113, 114, 115, 116, 117, 118, 119, 120, 121, 122]

/-- The string `'ABCDEFGHIJKLMNOPQRSTUVWXYZ'`. -/
def uppercaseChars : List Nat :=
  [65, 66, 67, 68, 69, 70, 71, 72, 73, 74, 75, 76, 77,
   78, 79, 80, 81, 82, 83, 84, 85, 86, 87, 88, 89, 90]

/-- The string `'0123456789'`. -/
def digitChars : List Nat := [48, 49, 50, 51, 52, 53, 54, 55, 56, 57]

/-- The value of the raw-string literal used for the `?s` tables
(lines 23 and 59 of the Python file).  Being a raw string, `\'` keeps
its backslash and `[\\]` keeps both backslashes, so the char 92 occurs
three times. -/
def specialChars : List Nat :=
  [33, 34, 35, 36, 37, 38, 92, 39, 40, 41, 42, 43, 44, 45, 46, 47,
   58, 59, 60, 61, 62, 63, 64, 91, 92, 92, 93, 94, 95, 96, 123, 124, 125, 126]

/-- The tail of the (cooked) `?a` charset literal on line 24: there `\'`
denotes a plain quote and `[\\]` a single backslash. -/
def alnumSpecialTail : List Nat :=
  [33, 34, 35, 36, 37, 38, 39, 40, 41, 42, 43, 44, 45, 46, 47,
   58, 59, 60, 61, 62, 63, 64, 91, 92, 93, 94, 95, 96, 123, 124, 125, 126]

/-- The value of the `?a` accent-table literal of `extractWords`
(line 58).  The file stores it double-encoded, so its Python value is the
28 mojibake code points below (14 pairs starting with 195). -/
def accentChars : List Nat :=
  [195, 161, 195, 169, 195, 173, 195, 179, 195, 186, 195, 129, 195, 137,
   195, 141, 195, 147, 195, 154, 195, 177, 195, 145, 195, 188, 195, 156]

/-- The `predefined_charsets` dictionary of `parse_charset`. -/
def predefined_charsets : List (List Nat × List Nat) :=
  [([63, 108], lowercaseChars),
   ([63, 117], uppercaseChars),
   ([63, 100], digitChars),
   ([63, 104], digitChars ++ [97, 98, 99, 100, 101, 102]),
   ([63, 72], digitChars ++ [65, 66, 67, 68, 69, 70]),
   ([63, 115], specialChars),
   ([63, 97], lowercaseChars ++ uppercaseChars ++ digitChars ++ alnumSpecialTail)]

/-- `parse_charset`: a predefined charset code resolves to its table,
anything else is returned as a literal custom charset. -/
def parse_charset (charset : List Nat) : List Nat :=
  match List.lookup charset predefined_charsets with
  | some cs => cs
  | none => charset

/-- The `predefined_blacklists` dictionary of `extractWords`. -/
def predefined_blacklists : List (List Nat × List Nat) :=
  [([63, 108], lowercaseChars),
   ([63, 117], uppercaseChars),
   ([63, 100], digitChars),
   ([63, 97], accentChars),
   ([63, 115], specialChars)]

/-- Python `str.split(sep)` for a one-character separator: adjacent
separators and separators at either end produce empty segments, and the
empty string splits into `[""]`. -/
def pySplit (sep : Nat) : List Nat → List (List Nat)
  | [] => [[]]
  | c :: rest =>
    match pySplit sep rest with
    | [] => [[]]
    | s :: ss => if c = sep then [] :: s :: ss else (c :: s) :: ss

/-- The character set one segment contributes: the segment is re-prefixed
with the `?` marker (code point 63); a recognized key contributes its
predefined table, an unrecognized one contributes the segment's own
characters. -/
def segmentChars (segment : List Nat) : Finset Nat :=
  match List.lookup (63 :: segment) predefined_blacklists with
  | some table => table.toFinset
  | none => segment.toFinset

/-- One pass of the blacklist-building loop body of `extractWords`:
empty segments are skipped, the others have their characters unioned into
the accumulated blacklist (`blacklist.update(...)`). -/
def updateSegment (blacklist : Finset Nat) (segment : List Nat) : Finset Nat :=
  if segment = [] then blacklist else blacklist ∪ segmentChars segment

/-- The blacklist built by `extractWords` from its `conditions` string:
empty conditions leave the blacklist empty, otherwise the string is split
on `'?'` and each segment accumulated by `updateSegment`. -/
def resolveBlacklist (conditions : List Nat) : Finset Nat :=
  if conditions = [] then ∅
  else (pySplit 63 conditions).foldl updateSegment ∅

/-- The length-based `continue` condition of the `extractWords` loop. -/
def lengthReject (maxLength exactLength minLength : Option Nat) (n : Nat) : Bool :=
  (match maxLength with | some m => decide (m < n) | none => false) ||
  (match exactLength with | some e => decide (n ≠ e) | none => false) ||
  (match minLength with | some m => decide (n < m) | none => false)

/-- The blacklist-based `continue` condition of the `extractWords` loop:
`if blacklist and any(char in blacklist for char in word)`. -/
def blacklistReject (blacklist : Finset Nat) (w : List Nat) : Bool :=
  decide (blacklist ≠ ∅) && w.any (fun c => decide (c ∈ blacklist))

/-- The filtering loop of `extractWords` over the (stripped) source lines:
words surviving both `continue` checks are appended to `filtered_words`
in source order. -/
def extractWords (maxLength exactLength minLength : Option Nat)
    (blacklist : Finset Nat) (src : List (List Nat)) : List (List Nat) :=
  src.foldl (fun filtered w =>
    if lengthReject maxLength exactLength minLength w.length then filtered
    else if blacklistReject blacklist w then filtered
    else filtered ++ [w]) []

/-- The padding enumeration `itertools.product(charset, repeat=k)`: all
ordered `k`-tuples over `charset`, the first tuple position iterated by the
outermost loop, so the last position cycles fastest. -/
def product (charset : List Nat) : Nat → List (List Nat)
  | 0 => [[]]
  | k + 1 => (charset.map (fun c => (product charset k).map (fun t => c :: t))).flatten

/-- The per-word body of the `generateDictionary` read loop: a word of the
target length is emitted unchanged, a shorter word is emitted once per
padding tuple (appended, or prepended when `prepend` is set), a longer word
is dropped. -/
def padWord (charset : List Nat) (maxLength : Nat) (prepend : Bool) (word : List Nat) : List (List Nat) :=
  if word.length = maxLength then [word]
  else if word.length < maxLength then
    (product charset (maxLength - word.length)).map
      (fun padding => if prepend then padding ++ word else word ++ padding)
  else []

/-- The `generated_words` accumulation of `generateDictionary` over the
source lines. -/
def generateDictionary (charset : List Nat) (maxLength : Nat) (prepend : Bool)
    (src : List (List Nat)) : List (List Nat) :=
  src.foldl (fun generated w => generated ++ padWord charset maxLength prepend w) []

/-- Index decoding for the padding order: the `k`-tuple at position `i` of
the enumeration reads off the base-`|charset|` digits of `i`, most
significant digit first, so the last tuple position cycles fastest. -/
def decodeTuple (charset : List Nat) : Nat → Nat → List Nat
  | 0, _ => []
  | k + 1, i =>
    charset.getD (i / charset.length ^ k) 0 :: decodeTuple charset k (i % charset.length ^ k)

/-- Python `str.lower` on one code point, for the latin-1 input domain:
ASCII uppercase and the latin-1 uppercase letters (except the
multiplication sign 215) shift down by 32, everything else is unchanged. -/
def pyLowerChar (c : Nat) : Nat :=
  if 65 ≤ c ∧ c ≤ 90 then c + 32
  else if 192 ≤ c ∧ c ≤ 222 ∧ c ≠ 215 then c + 32
  else c

/-- Python `str.upper` on one code point, for the latin-1 input domain.
The result is a string: the sharp s 223 uppercases to the two-character
`SS`, the micro sign 181 to the Greek capital Mu 924, 255 to 376, the
remaining lowercase letters (except the division sign 247) shift up by 32,
everything else is unchanged. -/
def pyUpperChar (c : Nat) : List Nat :=
  if 97 ≤ c ∧ c ≤ 122 then [c - 32]
  else if c = 181 then [924]
  else if c = 223 then [83, 83]
  else if 224 ≤ c ∧ c ≤ 254 ∧ c ≠ 247 then [c - 32]
  else if c = 255 then [376]
  else [c]

/-- Python `str.casefold` on one code point of the closure of the latin-1
domain under `pyLowerChar`/`pyUpperChar`. -/
def caseFoldChar (c : Nat) : List Nat :=
  if 65 ≤ c ∧ c ≤ 90 then [c + 32]
  else if 192 ≤ c ∧ c ≤ 222 ∧ c ≠ 215 then [c + 32]
  else if c = 223 then [115, 115]
  else if c = 181 then [956]
  else if c = 924 then [956]
  else if c = 376 then [255]
  else [c]

/-- Python `str.casefold` of a word. -/
def caseFold (w : List Nat) : List Nat := w.flatMap caseFoldChar

/-- `itertools.product(*options)` where each factor is a list of strings
and the produced tuples are joined: the first factor is iterated by the
outermost loop. -/
def caseProduct : List (List (List Nat)) → List (List Nat)
  | [] => [[]]
  | opts :: rest => (opts.map (fun s => (caseProduct rest).map (fun t => s ++ t))).flatten

/-- The per-character factors `[(char.lower(), char.upper()) for char in word]`
of `generateCombinatory`, lowercase form first. -/
def caseOptions (w : List Nat) : List (List (List Nat)) :=
  w.map (fun c => [[pyLowerChar c], pyUpperChar c])

/-- The joined case-variant tuples of one word, before set-deduplication. -/
def caseCombosList (w : List Nat) : List (List Nat) := caseProduct (caseOptions w)

/-- The Python set `combos` of `generateCombinatory`, as a deduplicated
list (its iteration order is unspecified in Python; the theorems use it
only through membership and `toFinset`). -/
def caseCombos (w : List Nat) : List (List Nat) := (caseCombosList w).dedup

/-- The `substitutions` table of `generateCombinatory`:
a 4 @, b 8, c < (, e 3, g 6 9, i 1 !, l 1 |, o 0, s 5 $, t 7 +, z 2. -/
def substitutions : List (Nat × List Nat) :=
  [(97, [52, 64]), (98, [56]), (99, [60, 40]), (101, [51]), (103, [54, 57]),
   (105, [49, 33]), (108, [49, 124]), (111, [48]), (115, [53, 36]),
   (116, [55, 43]), (122, [50])]

/-- Python `combo.replace(target, sub)` for one-character `target` and
`sub`: every occurrence is replaced. -/
def pyReplace (w : List Nat) (target sub : Nat) : List Nat :=
  w.map (fun c => if c = target then sub else c)

/-- The Python set `substitutions_combos` built for one case variant in
extended mode.  It is initialized as `set(combo)` — the set of the
variant's characters, each a one-character string — and then receives
`combo.replace(char, sub)` for every substitution-table letter `char`
occurring in the variant and every replacement `sub`. -/
def substSet (combo : List Nat) : List (List Nat) :=
  (combo.map (fun c => [c]) ++
    substitutions.flatMap (fun p =>
      if p.1 ∈ combo then p.2.map (fun sub => pyReplace combo p.1 sub) else [])).dedup

/-- The `generated_words` accumulation of `generateCombinatory`: per word
the case-variant set, followed in extended mode by the
`substitutions_combos` set of each variant. -/
def generateCombinatory (extended : Bool) (src : List (List Nat)) : List (List Nat) :=
  src.foldl (fun generated w =>
    let combos := caseCombos w
    if extended then generated ++ combos ++ combos.flatMap substSet
    else generated ++ combos) []

/-- The two exception classes distinguished by the `except` clauses of
every operation: `FileNotFoundError` and any other `Exception`. -/
inductive PyErr
  | fileNotFound
  | other
deriving DecidableEq

/-- The user-visible outcome message of one operation: the success
message, the `Error: File '…' not found.` message, or the generic
`An error occurred: …` message. -/
inductive Msg
  | saved
  | fileNotFoundMsg
  | genericFailure
deriving DecidableEq

/-- The observable outcome of one operation run: the content appended to
the output file (`none` when the output file was never opened) and the
message printed. -/
structure Outcome where
  written : Option (List Nat)
  message : Msg
deriving DecidableEq

/-- The dispatch of the two `except` clauses shared by all three
operations. -/
def handler : PyErr → Msg
  | .fileNotFound => .fileNotFoundMsg
  | .other => .genericFailure

/-- The content a successful run appends to the output file:
`"\n".join(words) + "\n"`. -/
def joinLines (ws : List (List Nat)) : List Nat := List.intercalate [10] ws ++ [10]

/-- The shared `try`/`except` shape of the three operations: the source is
read first (possibly failing), the pure core computes the result words,
and only then is the output file opened and appended to (possibly
failing); an error anywhere in the `try` block reaches `handler` instead
of propagating. -/
def runOp (core : List (List Nat) → List (List Nat)) (readResult : Except PyErr (List (List Nat)))
    (writeError : Option PyErr) : Outcome :=
  match readResult with
  | .error e => ⟨none, handler e⟩
  | .ok src =>
    match writeError with
    | some e => ⟨none, handler e⟩
    | none => ⟨some (joinLines (core src)), .saved⟩

/-- The full `extractWords` operation: blacklist resolution, filtering,
write-back, error handling. -/
def extractWordsRun (maxLength exactLength minLength : Option Nat) (conditions : List Nat)
    (readResult : Except PyErr (List (List Nat))) (writeError : Option PyErr) : Outcome :=
  runOp (extractWords maxLength exactLength minLength (resolveBlacklist conditions))
    readResult writeError

/-- The full `generateDictionary` operation. -/
def generateDictionaryRun (charset : List Nat) (maxLength : Nat) (prepend : Bool)
    (readResult : Except PyErr (List (List Nat))) (writeError : Option PyErr) : Outcome :=
  runOp (generateDictionary (parse_charset charset) maxLength prepend) readResult writeError

/-- The full `generateCombinatory` operation; the final write joins
`set(generated_words)`, modelled as the deduplicated list. -/
def generateCombinatoryRun (extended : Bool)
    (readResult : Except PyErr (List (List Nat))) (writeError : Option PyErr) : Outcome :=
  runOp (fun src => (generateCombinatory extended src).dedup) readResult writeError

/-- A tagged length constraint: exactly one of maximum, exact or minimum,
as enforced by the mutually exclusive CLI group. -/
inductive LengthConstraint
  | maxL (n : Nat)
  | exactL (n : Nat)
  | minL (n : Nat)

/-- The `max_length` argument a constraint supplies. -/
def lcMax : LengthConstraint → Option Nat
  | .maxL n => some n
  | _ => none

/-- The `exact_length` argument a constraint supplies. -/
def lcExact : LengthConstraint → Option Nat
  | .exactL n => some n
  | _ => none

/-- The `min_length` argument a constraint supplies. -/
def lcMin : LengthConstraint → Option Nat
  | .minL n => some n
  | _ => none

/-- Satisfaction of a length constraint, as the specification states it:
at most `n` for maximum, equal for exact, at least `n` for minimum. -/
def lcSat : LengthConstraint → Nat → Bool
  | .maxL n, len => decide (len ≤ n)
  | .exactL n, len => decide (len = n)
  | .minL n, len => decide (n ≤ len)

/-- The accumulating loop of `extractWords` is a filter. -/
theorem extractWords_eq_filter (maxL exactL minL : Option Nat) (bl : Finset Nat)
    (src : List (List Nat)) :
    extractWords maxL exactL minL bl src =
      src.filter (fun w => !lengthReject maxL exactL minL w.length && !blacklistReject bl w) := by
  have aux : ∀ (l acc : List (List Nat)),
      l.foldl (fun filtered w =>
        if lengthReject maxL exactL minL w.length then filtered
        else if blacklistReject bl w then filtered
        else filtered ++ [w]) acc
      = acc ++ l.filter (fun w =>
          !lengthReject maxL exactL minL w.length && !blacklistReject bl w) := by
    intro l
    induction l with
    | nil => intro acc; simp
    | cons w ws ih =>
      intro acc
      simp only [List.foldl_cons, List.filter_cons]
      cases h1 : lengthReject maxL exactL minL w.length <;>
        cases h2 : blacklistReject bl w <;>
          simp [h1, h2, ih, List.append_assoc]
  simpa using aux src []

/-- With no length options and a non-empty blacklist, `extractWords` keeps
exactly the words containing no blacklisted character. -/
theorem extract_noLength (bl : Finset Nat) (hne : bl ≠ ∅) (src : List (List Nat)) :
    extractWords none none none bl src =
      src.filter (fun w => decide (∀ c ∈ w, c ∉ bl)) := by
  rw [extractWords_eq_filter]
  refine List.filter_congr fun w _ => ?_
  rw [← Bool.coe_iff_coe]
  simp [lengthReject, blacklistReject, hne, List.any_eq_true]

/-- C1, counterexample: with the single conditions string `"?d!"`, the
segment `d!` is not a recognized table code, so the blacklist is the
literal pair `{'d','!'}`; the word `"password"` contains neither a digit
nor `'!'` yet is excluded (it contains `'d'`), refuting the claim that
every such word is kept. -/
theorem C1_counterexample :
    extractWords none none none (resolveBlacklist [63, 100, 33])
      [[112, 97, 115, 115, 119, 111, 114, 100]] = [] ∧
    ([112, 97, 115, 115, 119, 111, 114, 100] : List Nat).all
      (fun c => !decide ((48 ≤ c ∧ c ≤ 57) ∨ c = 33)) = true := by
  decide

/-- C1, amended: with the conditions string `"?d?!"` — the digit-table
segment plus a separate literal `!` segment — the blacklist is the digits
together with `'!'`: a word is kept exactly when it contains no digit and
no `'!'`; in particular `"pa55!"` is excluded and `"password"` is kept. -/
theorem C1_theorem :
    (∀ src : List (List Nat),
      extractWords none none none (resolveBlacklist [63, 100, 63, 33]) src =
        src.filter (fun w => decide (∀ c ∈ w, ¬((48 ≤ c ∧ c ≤ 57) ∨ c = 33)))) ∧
    extractWords none none none (resolveBlacklist [63, 100, 63, 33])
      [[112, 97, 53, 53, 33], [112, 97, 115, 115, 119, 111, 114, 100]] =
      [[112, 97, 115, 115, 119, 111, 114, 100]] := by
  constructor
  · intro src
    rw [extract_noLength _ (by decide)]
    refine List.filter_congr fun w _ => ?_
    rw [decide_eq_decide]
    have hbl : resolveBlacklist [63, 100, 63, 33] =
        ({48, 49, 50, 51, 52, 53, 54, 55, 56, 57, 33} : Finset ℕ) := by decide
    simp only [hbl, Finset.mem_insert, Finset.mem_singleton]
    constructor <;> intro h c hc <;> have := h c hc <;> omega
  · decide

/-- C5: for every tagged length constraint, blacklist and source, the
filter operation outputs exactly the words satisfying the stated length
condition and, when the blacklist is non-empty, containing none of its
characters; the output is a subsequence of the source (order
preserved). -/
theorem C5_theorem (lc : LengthConstraint) (bl : Finset Nat) (src : List (List Nat)) :
    extractWords (lcMax lc) (lcExact lc) (lcMin lc) bl src =
      src.filter (fun w => lcSat lc w.length &&
        (decide (bl = ∅) || w.all (fun c => decide (c ∉ bl)))) ∧
    (extractWords (lcMax lc) (lcExact lc) (lcMin lc) bl src).Sublist src := by
  constructor
  · rw [extractWords_eq_filter]
    refine List.filter_congr fun w _ => ?_
    rw [← Bool.coe_iff_coe]
    cases lc <;>
      simp [lengthReject, lcSat, lcMax, lcExact, lcMin, blacklistReject,
        List.any_eq_true, List.all_eq_true, Decidable.not_not]
  · rw [extractWords_eq_filter]
    exact List.filter_sublist _

/-- C6: `padWord` emits a word of exactly the target length once and
unchanged, and emits nothing for a word longer than the target length. -/
theorem C6_theorem (charset : List Nat) (maxLength : Nat) (prepend : Bool) (word : List Nat) :
    (word.length = maxLength → padWord charset maxLength prepend word = [word]) ∧
    (maxLength < word.length → padWord charset maxLength prepend word = []) := by
  constructor
  · intro h
    simp [padWord, h]
  · intro h
    have h1 : word.length ≠ maxLength := by omega
    have h2 : ¬ word.length < maxLength := by omega
    simp [padWord, h1, h2]

/-- C6 witness: a two-character word at target length 2 is emitted
unchanged, and at target length 1 it is dropped. -/
theorem C6_witness :
    padWord [48, 49] 2 false [97, 98] = [[97, 98]] ∧
    padWord [48, 49] 1 false [97, 98] = [] :=
  ⟨(C6_theorem [48, 49] 2 false [97, 98]).1 rfl,
   (C6_theorem [48, 49] 1 false [97, 98]).2 (by decide)⟩

/-- Membership in the blacklist accumulated by the `extractWords` loop. -/
theorem foldl_updateSegment_mem (segs : List (List Nat)) (init : Finset Nat) (x : Nat) :
    x ∈ segs.foldl updateSegment init ↔
      x ∈ init ∨ ∃ seg ∈ segs, seg ≠ [] ∧ x ∈ segmentChars seg := by
  induction segs generalizing init with
  | nil => simp
  | cons s ss ih =>
    simp only [List.foldl_cons]
    rw [ih]
    by_cases hs : s = []
    · subst hs
      simp [updateSegment]
    · simp only [updateSegment, if_neg hs, Finset.mem_union, List.mem_cons]
      constructor
      · rintro (⟨h | h⟩ | ⟨seg, hseg, hne, hx⟩)
        · exact Or.inl h
        · exact Or.inr ⟨s, Or.inl rfl, hs, h⟩
        · exact Or.inr ⟨seg, Or.inr hseg, hne, hx⟩
      · rintro (h | ⟨seg, hseg | hseg, hne, hx⟩)
        · exact Or.inl (Or.inl h)
        · exact Or.inl (Or.inr (hseg ▸ hx))
        · exact Or.inr ⟨seg, hseg, hne, hx⟩

/-- C7: the resolved blacklist contains exactly the characters contributed
by the non-empty segments of the conditions string split on the `?`
marker, each segment resolving (totally, never an error) to its predefined
table when `?`-prefixed it is a recognized key and to its own literal
characters otherwise. -/
theorem C7_theorem (conditions : List Nat) (x : Nat) :
    (x ∈ resolveBlacklist conditions ↔
      ∃ seg ∈ pySplit 63 conditions, seg ≠ [] ∧ x ∈ segmentChars seg) ∧
    (∀ seg : List Nat, List.lookup (63 :: seg) predefined_blacklists = none →
      segmentChars seg = seg.toFinset) := by
  constructor
  · by_cases h : conditions = []
    · subst h
      simp [resolveBlacklist, pySplit]
    · rw [resolveBlacklist, if_neg h, foldl_updateSegment_mem]
      simp
  · intro seg hseg
    simp [segmentChars, hseg]

/-- C7 witness: the unrecognized segment `d!` resolves to its literal
characters, and with conditions `"?d!"` the character `'d'` is in the
resolved blacklist via that segment. -/
theorem C7_witness :
    segmentChars [100, 33] = ([100, 33] : List Nat).toFinset ∧
    (100 ∈ resolveBlacklist [63, 100, 33] ↔
      ∃ seg ∈ pySplit 63 [63, 100, 33], seg ≠ [] ∧ 100 ∈ segmentChars seg) :=
  ⟨(C7_theorem [] 0).2 [100, 33] (by decide), (C7_theorem [63, 100, 33] 100).1⟩

/-- C8: every run of an operation ends with one of the three defined
messages (no exception escapes the operation); an error of the
`FileNotFoundError` class while reading the source yields the
file-not-found message, and an error of any other class — at read or at
write — yields the generic failure message. -/
theorem C8_theorem (core : List (List Nat) → List (List Nat)) (readResult : Except PyErr (List (List Nat)))
    (writeError : Option PyErr) :
    ((runOp core readResult writeError).message = Msg.saved ∨
      (runOp core readResult writeError).message = Msg.fileNotFoundMsg ∨
      (runOp core readResult writeError).message = Msg.genericFailure) ∧
    (readResult = Except.error PyErr.fileNotFound →
      (runOp core readResult writeError).message = Msg.fileNotFoundMsg) ∧
    (readResult = Except.error PyErr.other →
      (runOp core readResult writeError).message = Msg.genericFailure) ∧
    (∀ src, readResult = Except.ok src → writeError = some PyErr.other →
      (runOp core readResult writeError).message = Msg.genericFailure) := by
  rcases readResult with e | src
  · cases e <;> simp [runOp, handler]
  · rcases writeError with _ | e
    · simp [runOp]
    · cases e <;> simp [runOp, handler]

/-- C8 witness: a missing source file for the filter operation produces
the file-not-found message. -/
theorem C8_witness :
    (runOp (extractWords none none none ∅) (Except.error PyErr.fileNotFound) none).message =
      Msg.fileNotFoundMsg :=
  (C8_theorem (extractWords none none none ∅) (Except.error PyErr.fileNotFound) none).2.1 rfl

/-- C9: for each of the three operations, when reading the source fails
with `FileNotFoundError` nothing is ever written to the output
destination — the output file is only opened after the source has been
read completely. -/
theorem C9_theorem :
    (∀ maxL exactL minL conditions writeError,
      (extractWordsRun maxL exactL minL conditions
        (Except.error PyErr.fileNotFound) writeError).written = none) ∧
    (∀ charset maxLength prepend writeError,
      (generateDictionaryRun charset maxLength prepend
        (Except.error PyErr.fileNotFound) writeError).written = none) ∧
    (∀ extended writeError,
      (generateCombinatoryRun extended
        (Except.error PyErr.fileNotFound) writeError).written = none) :=
  ⟨fun _ _ _ _ _ => rfl, fun _ _ _ _ => rfl, fun _ _ => rfl⟩

/-- C10: a successful run that produced zero result words still appends
`"\n".join([]) + "\n"` — exactly one newline character — to the output
file; in particular each of the three operations does so on an empty
source. -/
theorem C10_theorem :
    (∀ (core : List (List Nat) → List (List Nat)) (src : List (List Nat)), core src = [] →
      (runOp core (Except.ok src) none).written = some [10]) ∧
    (∀ maxL exactL minL conditions,
      (extractWordsRun maxL exactL minL conditions (Except.ok []) none).written = some [10]) ∧
    (∀ charset maxLength prepend,
      (generateDictionaryRun charset maxLength prepend (Except.ok []) none).written = some [10]) ∧
    (∀ extended,
      (generateCombinatoryRun extended (Except.ok []) none).written = some [10]) :=
  ⟨fun core src h => by simp [runOp, joinLines, h, List.intercalate],
   fun _ _ _ _ => rfl, fun _ _ _ => rfl, fun _ => rfl⟩

/-- C10 witness: the filter operation with an empty source appends the
single newline character. -/
theorem C10_witness :
    (runOp (extractWords none none none ∅) (Except.ok []) none).written = some [10] :=
  C10_theorem.1 (extractWords none none none ∅) [] rfl

/-- Splitting the index range of `n * m` into `n` consecutive blocks of
size `m`. -/
theorem range_mul_eq_flatten (n m : Nat) :
    List.range (n * m) =
      ((List.range n).map (fun j => (List.range m).map (fun i => j * m + i))).flatten := by
  induction n with
  | zero => simp
  | succ n ih =>
    rw [Nat.succ_mul, List.range_add, ih, List.range_succ, List.map_append,
      List.flatten_append]
    simp

/-- A `map` over a list as a `map` over its index range. -/
theorem map_eq_range_getD {α : Type} (cs : List Nat) (f : Nat → α) :
    cs.map f = (List.range cs.length).map (fun j => f (cs.getD j 0)) := by
  apply List.ext_getElem
  · simp
  · intro i h1 h2
    simp only [List.getElem_map, List.getElem_range]
    rw [List.getD_eq_getElem cs 0 (by simpa using h1)]

/-- The padding enumeration in closed form: the tuple at index `i` is the
base-`|charset|` digit expansion of `i`, most significant digit first —
so the enumeration is the Cartesian power of the charset order with the
last tuple position cycling fastest. -/
theorem product_eq_decode (cs : List Nat) (k : Nat) :
    product cs k = (List.range (cs.length ^ k)).map (decodeTuple cs k) := by
  induction k with
  | zero => rfl
  | succ k ih =>
    by_cases hcs : cs = []
    · subst hcs
      simp [product]
    · have hn : 0 < cs.length := List.length_pos.mpr hcs
      have hm : 0 < cs.length ^ k := pow_pos hn k
      rw [product, ih, pow_succ', range_mul_eq_flatten, List.map_flatten,
        List.map_map, map_eq_range_getD cs]
      congr 1
      refine List.map_congr_left fun j hj => ?_
      simp only [Function.comp_apply, Function.comp_def]
      rw [List.map_map, List.map_map]
      refine List.map_congr_left fun i hi => ?_
      have hi' : i < cs.length ^ k := List.mem_range.mp hi
      have hdiv : (j * cs.length ^ k + i) / cs.length ^ k = j := by
        rw [Nat.add_comm, Nat.mul_comm, Nat.add_mul_div_left _ _ hm,
          Nat.div_eq_of_lt hi', Nat.zero_add]
      have hmod : (j * cs.length ^ k + i) % cs.length ^ k = i := by
        rw [Nat.add_comm, Nat.mul_comm j, Nat.add_mul_mod_self_left,
          Nat.mod_eq_of_lt hi']
      simp only [Function.comp_apply, Function.comp_def, decodeTuple, hdiv, hmod]

/-- Every decoded tuple has the decoded number of positions. -/
theorem decodeTuple_length (cs : List Nat) (k : Nat) :
    ∀ i, (decodeTuple cs k i).length = k := by
  induction k with
  | zero => intro i; rfl
  | succ k ih => intro i; simp [decodeTuple, ih]

/-- The padding enumeration has exactly `|charset| ^ k` entries. -/
theorem product_length (cs : List Nat) (k : Nat) :
    (product cs k).length = cs.length ^ k := by
  rw [product_eq_decode]
  simp

/-- Every tuple of the padding enumeration has `k` positions. -/
theorem mem_product_length (cs : List Nat) (k : Nat) :
    ∀ t ∈ product cs k, t.length = k := by
  rw [product_eq_decode]
  intro t ht
  obtain ⟨i, -, rfl⟩ := List.mem_map.mp ht
  exact decodeTuple_length cs k i

/-- In a duplicate-free list, `getD` is injective on valid indices. -/
theorem getD_inj (cs : List Nat) (hnd : cs.Nodup) {j j' : Nat}
    (hj : j < cs.length) (hj' : j' < cs.length)
    (h : cs.getD j 0 = cs.getD j' 0) : j = j' := by
  rw [List.getD_eq_getElem cs 0 hj, List.getD_eq_getElem cs 0 hj'] at h
  exact (hnd.getElem_inj_iff).mp h

/-- Tuple decoding is injective below `|charset| ^ k` when the charset has
no repeated characters. -/
theorem decodeTuple_inj (cs : List Nat) (hnd : cs.Nodup) (k : Nat) :
    ∀ i i', i < cs.length ^ k → i' < cs.length ^ k →
      decodeTuple cs k i = decodeTuple cs k i' → i = i' := by
  induction k with
  | zero =>
    intro i i' hi hi' _
    rw [pow_zero] at hi hi'
    omega
  | succ k ih =>
    intro i i' hi hi' h
    by_cases hcs : cs = []
    · subst hcs
      simp [Nat.zero_pow] at hi
    · have hn : 0 < cs.length := List.length_pos.mpr hcs
      have hm : 0 < cs.length ^ k := pow_pos hn k
      simp only [decodeTuple, List.cons.injEq] at h
      have hdivlt : i / cs.length ^ k < cs.length :=
        (Nat.div_lt_iff_lt_mul hm).mpr (by rw [← pow_succ']; exact hi)
      have hdivlt' : i' / cs.length ^ k < cs.length :=
        (Nat.div_lt_iff_lt_mul hm).mpr (by rw [← pow_succ']; exact hi')
      have hdiv : i / cs.length ^ k = i' / cs.length ^ k :=
        getD_inj cs hnd hdivlt hdivlt' h.1
      have hmod : i % cs.length ^ k = i' % cs.length ^ k :=
        ih _ _ (Nat.mod_lt _ hm) (Nat.mod_lt _ hm) h.2
      have e1 := Nat.div_add_mod i (cs.length ^ k)
      have e2 := Nat.div_add_mod i' (cs.length ^ k)
      rw [← e1, ← e2, hdiv, hmod]

/-- The padding enumeration has no duplicates when the charset has no
repeated characters. -/
theorem product_nodup (cs : List Nat) (hnd : cs.Nodup) (k : Nat) :
    (product cs k).Nodup := by
  rw [product_eq_decode]
  refine List.Nodup.map_on ?_ (List.nodup_range _)
  intro i hi i' hi' h
  exact decodeTuple_inj cs hnd k i i'
    (List.mem_range.mp hi) (List.mem_range.mp hi') h

/-- C3: for a word shorter than the target length, `padWord` emits the
map of the padding enumeration over the word; it emits exactly
`|charset| ^ (L - len(word))` strings, all distinct when the charset has
no repeated characters, each of length `L`, each with the word as prefix
in append mode and as suffix in prepend mode; and the enumeration order
is the Cartesian power of the charset order, index `i` giving the
base-`|charset|` digits of `i` with the last tuple position cycling
fastest. -/
theorem C3_theorem (charset : List Nat) (maxLength : Nat) (prepend : Bool)
    (word : List Nat) (h : word.length < maxLength) :
    padWord charset maxLength prepend word =
      (product charset (maxLength - word.length)).map
        (fun padding => if prepend then padding ++ word else word ++ padding) ∧
    (padWord charset maxLength prepend word).length =
      charset.length ^ (maxLength - word.length) ∧
    (∀ v ∈ padWord charset maxLength prepend word,
      v.length = maxLength ∧ (if prepend then word <:+ v else word <+: v)) ∧
    (charset.Nodup → (padWord charset maxLength prepend word).Nodup) ∧
    product charset (maxLength - word.length) =
      (List.range (charset.length ^ (maxLength - word.length))).map
        (decodeTuple charset (maxLength - word.length)) := by
  have hne : word.length ≠ maxLength := by omega
  have hdef : padWord charset maxLength prepend word =
      (product charset (maxLength - word.length)).map
        (fun padding => if prepend then padding ++ word else word ++ padding) := by
    simp [padWord, hne, h]
  refine ⟨hdef, ?_, ?_, ?_, product_eq_decode _ _⟩
  · rw [hdef, List.length_map, product_length]
  · intro v hv
    rw [hdef] at hv
    obtain ⟨p, hp, rfl⟩ := List.mem_map.mp hv
    have hplen : p.length = maxLength - word.length := mem_product_length _ _ p hp
    cases prepend
    · refine ⟨?_, p, rfl⟩
      simp only [Bool.false_eq_true, if_false, List.length_append]
      omega
    · refine ⟨?_, p, rfl⟩
      simp only [if_true, List.length_append]
      omega
  · intro hnd
    rw [hdef]
    refine List.Nodup.map_on ?_ (product_nodup _ hnd _)
    intro x _ y _ hxy
    cases prepend
    · simp only [Bool.false_eq_true, if_false] at hxy
      exact List.append_cancel_left hxy
    · simp only [if_true] at hxy
      exact List.append_cancel_right hxy

/-- C3 witness: word `"ab"`, target length 3, charset `"01"`, append
mode. -/
theorem C3_witness :
    ([97, 98] : List Nat).length < 3 ∧
    (padWord [48, 49] 3 false [97, 98]).length =
      [48, 49].length ^ (3 - ([97, 98] : List Nat).length) :=
  ⟨by decide, (C3_theorem [48, 49] 3 false [97, 98] (by decide)).2.1⟩

/-- The strings obtainable by choosing, independently for each character
position of `w`, either its lowercase or its uppercase form (the forms
are strings, concatenated in position order). -/
def IsCaseVariant : List Nat → List Nat → Prop
  | [], v => v = []
  | c :: rest, v =>
    ∃ t, IsCaseVariant rest t ∧ (v = pyLowerChar c :: t ∨ v = pyUpperChar c ++ t)

/-- Membership in one `caseProduct` layer. -/
theorem mem_caseProduct_cons (o : List (List Nat)) (rest : List (List (List Nat)))
    (v : List Nat) :
    v ∈ caseProduct (o :: rest) ↔ ∃ s ∈ o, ∃ t ∈ caseProduct rest, v = s ++ t := by
  simp only [caseProduct, List.mem_flatten, List.mem_map]
  constructor
  · rintro ⟨l, ⟨s, hs, rfl⟩, hv⟩
    obtain ⟨t, ht, rfl⟩ := List.mem_map.mp hv
    exact ⟨s, hs, t, ht, rfl⟩
  · rintro ⟨s, hs, t, ht, rfl⟩
    exact ⟨(caseProduct rest).map (fun t => s ++ t), ⟨s, hs, rfl⟩,
      List.mem_map.mpr ⟨t, ht, rfl⟩⟩

/-- The case-variant tuples of a word are exactly the strings obtained by
an independent per-position case choice. -/
theorem mem_caseCombosList (w v : List Nat) :
    v ∈ caseCombosList w ↔ IsCaseVariant w v := by
  induction w generalizing v with
  | nil => simp [caseCombosList, caseOptions, caseProduct, IsCaseVariant]
  | cons c rest ih =>
    show v ∈ caseProduct (caseOptions (c :: rest)) ↔ _
    rw [show caseOptions (c :: rest) =
        [[pyLowerChar c], pyUpperChar c] :: caseOptions rest from rfl,
      mem_caseProduct_cons]
    constructor
    · rintro ⟨s, hs, t, ht, rfl⟩
      refine ⟨t, (ih t).mp ht, ?_⟩
      rcases List.mem_pair.mp hs with rfl | rfl
      · exact Or.inl rfl
      · exact Or.inr rfl
    · rintro ⟨t, ht, rfl | rfl⟩
      · exact ⟨[pyLowerChar c], List.mem_pair.mpr (Or.inl rfl), t, (ih t).mpr ht, rfl⟩
      · exact ⟨pyUpperChar c, List.mem_pair.mpr (Or.inr rfl), t, (ih t).mpr ht, rfl⟩

/-- Membership in the deduplicated case-variant set. -/
theorem mem_caseCombos (w v : List Nat) :
    v ∈ caseCombos w ↔ IsCaseVariant w v := by
  rw [caseCombos, List.mem_dedup]
  exact mem_caseCombosList w v

/-- The uppercase form of every code point other than the sharp s is a
single character. -/
theorem pyUpperChar_length (c : Nat) (h : c ≠ 223) : (pyUpperChar c).length = 1 := by
  unfold pyUpperChar
  split_ifs <;> simp_all

/-- Case variants of a sharp-s-free word keep the word's length. -/
theorem isCaseVariant_length (w : List Nat) (hw : 223 ∉ w) :
    ∀ v, IsCaseVariant w v → v.length = w.length := by
  induction w with
  | nil =>
    intro v hv
    simp only [IsCaseVariant] at hv
    simp [hv]
  | cons c rest ih =>
    intro v hv
    obtain ⟨t, ht, rfl | rfl⟩ := hv
    · have := ih (fun hm => hw (List.mem_cons_of_mem c hm)) t ht
      simp [this]
    · have hlen := ih (fun hm => hw (List.mem_cons_of_mem c hm)) t ht
      have hc : c ≠ 223 := fun hc => hw (hc ▸ List.mem_cons_self c rest)
      simp [List.length_append, pyUpperChar_length c hc, hlen]
      omega

/-- Case folding distributes over concatenation. -/
theorem caseFold_append (a b : List Nat) :
    caseFold (a ++ b) = caseFold a ++ caseFold b := by
  simp [caseFold, List.flatMap_append]

/-- Case folding of a one-character string. -/
theorem caseFold_single (c : Nat) : caseFold [c] = caseFoldChar c := by
  simp [caseFold]

/-- Case folding of a nonempty string, one character at a time. -/
theorem caseFold_cons (c : Nat) (w : List Nat) :
    caseFold (c :: w) = caseFoldChar c ++ caseFold w := by
  rw [show (c :: w) = [c] ++ w from rfl, caseFold_append, caseFold_single]

set_option maxRecDepth 4096 in
/-- Case folding agrees on the lowercase and uppercase forms of every
latin-1 code point. -/
theorem caseFoldChar_agree : ∀ c ∈ List.range 256,
    caseFold [pyLowerChar c] = caseFoldChar c ∧
    caseFold (pyUpperChar c) = caseFoldChar c := by decide

/-- Every case variant of a latin-1 word equals the word under case
folding. -/
theorem isCaseVariant_fold (w : List Nat) (hw : ∀ c ∈ w, c < 256) :
    ∀ v, IsCaseVariant w v → caseFold v = caseFold w := by
  induction w with
  | nil =>
    intro v hv
    simp only [IsCaseVariant] at hv
    simp [hv]
  | cons c rest ih =>
    intro v hv
    have hc := caseFoldChar_agree c
      (List.mem_range.mpr (hw c (List.mem_cons_self c rest)))
    have hrest : ∀ x ∈ rest, x < 256 :=
      fun x hx => hw x (List.mem_cons_of_mem c hx)
    obtain ⟨t, ht, rfl | rfl⟩ := hv
    · rw [caseFold_cons, ← caseFold_single, hc.1, ih hrest t ht, ← caseFold_cons]
    · rw [caseFold_append, hc.2, ih hrest t ht, ← caseFold_cons]

/-- The number of raw case-variant tuples is `2 ^ len`. -/
theorem caseCombosList_length (w : List Nat) :
    (caseCombosList w).length = 2 ^ w.length := by
  induction w with
  | nil => rfl
  | cons c rest ih =>
    show (caseProduct (caseOptions (c :: rest))).length = _
    rw [show caseOptions (c :: rest) =
        [[pyLowerChar c], pyUpperChar c] :: caseOptions rest from rfl]
    simp only [caseProduct, List.length_flatten, List.map_map, List.map_cons,
      List.map_nil, Function.comp_def, List.length_map, List.sum_cons,
      List.sum_nil]
    show (caseCombosList rest).length + ((caseCombosList rest).length + 0) = _
    rw [ih, List.length_cons, pow_succ]
    omega

/-- C4, counterexample: the latin-1 source word consisting of the sharp s
(code point 223) has the case variant `"SS"` — Python uppercases `'ß'` to
the two-character `'SS'` — so not every emitted string has the length of
the source word. -/
theorem C4_counterexample :
    [83, 83] ∈ caseCombos [223] ∧
    ([83, 83] : List Nat).length ≠ ([223] : List Nat).length := by decide

/-- C4, amended: the emitted set is exactly the strings obtained by an
independent per-position choice of the lowercase or uppercase form; it
has at most `2 ^ len(W)` elements; every emitted string equals the source
word under case folding; every emitted string has the source word's
length provided the word does not contain the sharp s 223 (whose
uppercase form is the two-character `"SS"`); and for the source word
`"go"` the emitted set is exactly `{"go","gO","Go","GO"}`. -/
theorem C4_theorem (w : List Nat) (hw : ∀ c ∈ w, c < 256) :
    (∀ v, v ∈ caseCombos w ↔ IsCaseVariant w v) ∧
    (caseCombos w).toFinset.card ≤ 2 ^ w.length ∧
    (∀ v ∈ caseCombos w, caseFold v = caseFold w) ∧
    (223 ∉ w → ∀ v ∈ caseCombos w, v.length = w.length) ∧
    (caseCombos [103, 111]).toFinset =
      {[103, 111], [103, 79], [71, 111], [71, 79]} := by
  refine ⟨fun v => mem_caseCombos w v, ?_, ?_, ?_, by decide⟩
  · calc (caseCombos w).toFinset.card ≤ (caseCombos w).length :=
          List.toFinset_card_le _
      _ ≤ (caseCombosList w).length := (List.dedup_sublist _).length_le
      _ = 2 ^ w.length := caseCombosList_length w
  · intro v hv
    exact isCaseVariant_fold w hw v ((mem_caseCombos w v).mp hv)
  · intro h223 v hv
    exact isCaseVariant_length w h223 v ((mem_caseCombos w v).mp hv)

/-- C4 witness: the amended claim applied to the source word `"go"`. -/
theorem C4_witness :
    (caseCombos [103, 111]).toFinset.card ≤ 2 ^ ([103, 111] : List Nat).length :=
  (C4_theorem [103, 111] (by decide)).2.1

/-- C2: evaluation of the code at the failing input.  For the source word
`"go"` in extended mode the output contains the one-character string
`"g"`: the per-variant set `substitutions_combos` is initialized as
`set(combo)`, the set of the variant's characters, so the emitted
additional outputs are not only whole-variant single-letter
substitutions — every case variant of `"go"` has length 2 and
`str.replace` preserves length, so `"g"` is neither a case variant nor a
substitution of one. -/
theorem C2_theorem :
    [103] ∈ generateCombinatory true [[103, 111]] ∧
    ([103] : List Nat).length = 1 ∧
    (caseCombos [103, 111]).all (fun v => v.length == 2) = true ∧
    (∀ (v : List Nat) (target sub : Nat), (pyReplace v target sub).length = v.length) :=
  ⟨by decide, rfl, by decide, fun v _ _ => List.length_map v _⟩

end DictGen
